import Mathlib

/-!
# tdgg: event aggregation and dispatch loop of `main.go`

A shallow embedding of the parts of `main` that order and route events:
the producer callbacks feeding the `events` channel, the startup poll on
`chat.Session.GetUsers()`, the dispatch goroutine with its type switch, and
the Enter key binding of the `input` view.

Calls into code outside `main.go` (`chat.render*`, `chat.handleInput`,
`chat.Session.GetUsers`, `time.Sleep`, the gocui view operations) are
recorded, in program order, in a trace of `Action` values.  The answers of
`chat.Session.GetUsers()` come from an oracle `sess : Nat → List User`, the
answer to the i-th query made by the process.
-/

namespace Tdgg

/-! ## Data model -/

/-- The payload types of the external `dggchat` package used by `main.go`.
`Other` stands for every Go value whose dynamic type is none of those the
type switch lists: the channel has element type `interface{}`. -/
structure Dggchat where
  Message : Type
  Mute : Type
  Ban : Type
  RoomAction : Type
  SubOnly : Type
  Broadcast : Type
  Ping : Type
  User : Type
  Other : Type

/-- The struct `config` of `main.go`. -/
structure Config where
  DGGKey : String
  CustomURL : String
  Username : String
  Highlighted : List String
  ShowJoinLeave : Bool

/-- A value travelling on `events` (a `chan interface{}`), by dynamic type.
`error` carries the text its `Error()` method returns. -/
inductive Event (L : Dggchat) : Type
  | message (m : L.Message)
  | error (text : String)
  | ping (p : L.Ping)
  | mute (m : L.Mute)
  | unmute (m : L.Mute)
  | ban (b : L.Ban)
  | unban (b : L.Ban)
  | joinAction (r : L.RoomAction)
  | quitAction (r : L.RoomAction)
  | subOnly (so : L.SubOnly)
  | broadcast (b : L.Broadcast)
  | other (v : L.Other)

/-- One observable call made by `main` after the session is opened. -/
inductive Action (L : Dggchat) : Type
  | getUsers
  | sleep
  | renderUsers (us : List L.User)
  | renderMessage (m : L.Message)
  | renderError (text : String)
  | renderMute (m : L.Mute)
  | renderUnmute (m : L.Mute)
  | renderBan (b : L.Ban)
  | renderUnban (b : L.Ban)
  | renderJoin (r : L.RoomAction)
  | renderQuit (r : L.RoomAction)
  | renderSubOnly (so : L.SubOnly)
  | renderBroadcast (b : L.Broadcast)

/-- The calls made so far and the number of `GetUsers` queries among them. -/
structure World (L : Dggchat) where
  queries : Nat
  trace : List (Action L)

variable {L : Dggchat}

/-- Whether an action is one of the `chat.render*` calls. -/
def Action.isRender : Action L → Bool
  | .getUsers => false
  | .sleep => false
  | _ => true

/-- Whether an action is a `chat.renderUsers` call. -/
def Action.isRenderUsers : Action L → Bool
  | .renderUsers _ => true
  | _ => false

/-- The render calls of a trace, in order. -/
def renderCalls (t : List (Action L)) : List (Action L) :=
  t.filter Action.isRender

/-- Record one call. -/
def World.emit (w : World L) (a : Action L) : World L :=
  { w with trace := w.trace ++ [a] }

/-- `chat.Session.GetUsers()`: the query is recorded and answered by the
oracle at the index of this query. -/
def World.getUsers (sess : Nat → List L.User) (w : World L) : List L.User × World L :=
  (sess w.queries, { queries := w.queries + 1, trace := w.trace ++ [Action.getUsers] })

/-! ## The dispatch goroutine (`main.go` lines 178-212) -/

/-- The body of the `for` loop for one received `event`: the type switch. -/
def handleEvent (config : Config) (sess : Nat → List L.User) (w : World L) :
    Event L → World L
  | .message m => w.emit (.renderMessage m)
  | .error text => w.emit (.renderError text)
  | .ping _ => w
  | .mute m => w.emit (.renderMute m)
  | .unmute m => w.emit (.renderUnmute m)
  | .ban b => w.emit (.renderBan b)
  | .unban b => w.emit (.renderUnban b)
  | .joinAction r =>
    let w1 := if config.ShowJoinLeave then w.emit (.renderJoin r) else w
    let (us, w2) := w1.getUsers sess
    w2.emit (.renderUsers us)
  | .quitAction r =>
    let w1 := if config.ShowJoinLeave then w.emit (.renderQuit r) else w
    let (us, w2) := w1.getUsers sess
    w2.emit (.renderUsers us)
  | .subOnly so => w.emit (.renderSubOnly so)
  | .broadcast b => w.emit (.renderBroadcast b)
  | .other _ => w

/-- The dispatch loop run over the events it receives, in receive order. -/
def dispatchLoop (config : Config) (sess : Nat → List L.User) (w : World L)
    (events : List (Event L)) : World L :=
  events.foldl (handleEvent config sess) w

/-! ## Go library functions called with data from `main.go`

`fmt.Errorf` and `strings.TrimSpace` belong to the Go standard library.  They
are embedded here from the library's code because `main.go` passes runtime
strings through them.  A Go string is modelled as a list of characters.
Positions count characters where the Go code counts bytes; every byte the
code below compares against is ASCII, so the positions correspond. -/

namespace Fmt

/-- The constants of `fmt/print.go` used when there is no operand. -/
def percentBangString : List Char := "%!".toList
/-- See `percentBangString`. -/
def missingString : List Char := "(MISSING)".toList
/-- See `percentBangString`. -/
def badIndexString : List Char := "(BADINDEX)".toList
/-- See `percentBangString`. -/
def badWidthString : List Char := "%!(BADWIDTH)".toList
/-- See `percentBangString`. -/
def badPrecString : List Char := "%!(BADPREC)".toList
/-- See `percentBangString`. -/
def noVerbString : List Char := "%!(NOVERB)".toList

/-- Function `tooLarge` of `fmt/print.go` (`max = 1e6`). -/
def tooLarge (x : Int) : Bool :=
  decide (x > 1000000) || decide (x < -1000000)

/-- The `for` loop of `parsenum`; `fuel` is the number of positions left. -/
def parsenumLoop (s : List Char) (stop : Nat) : Nat → Nat → Int → Bool → Int × Bool × Nat
  | 0, newi, num, isnum => (num, isnum, newi)
  | fuel + 1, newi, num, isnum =>
    let c := s.getD newi ' '
    if newi < stop ∧ '0' ≤ c ∧ c ≤ '9' then
      if tooLarge num then (0, false, stop)
      else parsenumLoop s stop fuel (newi + 1) (num * 10 + ((c.toNat - '0'.toNat : Nat) : Int)) true
    else (num, isnum, newi)

/-- Function `parsenum(s, start, end)` of `fmt/print.go`: `(num, isnum, newi)`. -/
def parsenum (s : List Char) (start stop : Nat) : Int × Bool × Nat :=
  if start ≥ stop then (0, false, stop)
  else parsenumLoop s stop (stop - start) start 0 false

/-- Length in bytes of the UTF-8 encoding, Go's `len` of a string. -/
def byteLen (s : List Char) : Nat :=
  (s.map Char.utf8Size).sum

/-- The search for the closing bracket in `parseArgNumber`. -/
def parseArgNumberLoop (format : List Char) : Nat → Nat → Int × Nat × Bool
  | 0, _ => (0, 1, false)
  | fuel + 1, i =>
    if i < format.length then
      if format.getD i ' ' = ']' then
        let (width, ok, newi) := parsenum format 1 i
        if !ok || newi != i then (0, i + 1, false)
        else (width - 1, i + 1, true)
      else parseArgNumberLoop format fuel (i + 1)
    else (0, 1, false)

/-- Function `parseArgNumber(format)` of `fmt/print.go`: `(index, wid, ok)`. -/
def parseArgNumber (format : List Char) : Int × Nat × Bool :=
  if byteLen format < 3 then (0, 1, false)
  else parseArgNumberLoop format format.length 1

/-- Method `argNumber` of `fmt/print.go` for an empty operand list
(`numArgs = 0`, so no index is in range): `(newi, found, goodArgNum)`. -/
def argNumber (format : List Char) (i : Nat) (goodArgNum : Bool) : Nat × Bool × Bool :=
  if format.length ≤ i ∨ format.getD i ' ' ≠ '[' then (i, false, goodArgNum)
  else
    let r := parseArgNumber (format.drop i)
    (i + r.2.1, r.2.2, false)

/-- The flag loop of `doPrintf`; with no operand the fast path for a simple
verb is never taken. -/
def skipFlags (format : List Char) : Nat → Nat → Nat
  | 0, i => i
  | fuel + 1, i =>
    let c := format.getD i 'x'
    if i < format.length ∧ (c = '#' ∨ c = '0' ∨ c = '+' ∨ c = '-' ∨ c = ' ') then
      skipFlags format fuel (i + 1)
    else i

/-- The width of one verb in `doPrintf`, from position `i`:
`(i, buf, afterIndex, goodArgNum)` after it.  A `*` finds no operand and
writes `badWidthString`; otherwise `parsenum` reads the digits. -/
def scanWidth (format : List Char) (i : Nat) (buf : List Char) (afterIndex good : Bool) :
    Nat × List Char × Bool × Bool :=
  if i < format.length ∧ format.getD i ' ' = '*' then
    (i + 1, buf ++ badWidthString, false, good)
  else
    let r := parsenum format i format.length
    (r.2.2, buf, afterIndex, if afterIndex && r.2.1 then false else good)

/-- The precision of one verb in `doPrintf`, from position `i`:
`(i, buf, afterIndex, goodArgNum)` after it. -/
def scanPrecision (format : List Char) (i : Nat) (buf : List Char) (afterIndex good : Bool) :
    Nat × List Char × Bool × Bool :=
  if i + 1 < format.length ∧ format.getD i ' ' = '.' then
    let a := argNumber format (i + 1) (if afterIndex then false else good)
    if a.1 < format.length ∧ format.getD a.1 ' ' = '*' then
      (a.1 + 1, buf ++ badPrecString, false, a.2.2)
    else
      ((parsenum format a.1 format.length).2.2, buf, a.2.1, a.2.2)
  else (i, buf, afterIndex, good)

/-- One turn of `formatLoop` in `doPrintf` from position `i`: the final
buffer when the loop ends in this turn, else the next position and the
buffer.  The steps are: copy the text up to the next `%`; skip the flags;
argument index; width; precision; argument index again unless one was just
read; then the verb, which without operand is `%`, a bad index or a
missing operand. -/
def formatTurn (format : List Char) (i : Nat) (buf : List Char) :
    List Char ⊕ (Nat × List Char) :=
  let stop := format.length
  let lit := (format.drop i).takeWhile (fun c => c ≠ '%')
  let buf := buf ++ lit
  let i := i + lit.length
  if i ≥ stop then .inl buf
  else
    let i := skipFlags format (stop - (i + 1)) (i + 1)
    let a := argNumber format i true
    let w := scanWidth format a.1 buf a.2.1 a.2.2
    let p := scanPrecision format w.1 w.2.1 w.2.2.1 w.2.2.2
    let b := if !p.2.2.1 then argNumber format p.1 p.2.2.2 else (p.1, p.2.2.1, p.2.2.2)
    if b.1 ≥ stop then .inl (p.2.1 ++ noVerbString)
    else
      let verb := format.getD b.1 ' '
      if verb = '%' then .inr (b.1 + 1, p.2.1 ++ ['%'])
      else if !b.2.2 then
        .inr (b.1 + 1, p.2.1 ++ percentBangString ++ [verb] ++ badIndexString)
      else
        .inr (b.1 + 1, p.2.1 ++ percentBangString ++ [verb] ++ missingString)

/-- Method `doPrintf(format, a)` of `fmt/print.go` with `a` empty: the
contents of the buffer at the end.  One round of `fuel` is one turn of
`formatLoop`; every turn moves forward, so the length of the format plus
one is enough fuel (`doPrintf_fuel`). -/
def doPrintf (format : List Char) : Nat → Nat → List Char → List Char
  | 0, _, buf => buf
  | fuel + 1, i, buf =>
    match formatTurn format i buf with
    | .inl out => out
    | .inr (i2, buf2) => doPrintf format fuel i2 buf2

/-- The text of `fmt.Errorf(format).Error()`: with no operand nothing is
wrapped and the error holds the formatted buffer. -/
def Errorf (format : String) : String :=
  String.mk (doPrintf format.toList (format.length + 1) 0 [])

end Fmt

/-- Function `unicode.IsSpace`: the Latin-1 cases, then the `White_Space`
range table. -/
def isSpace (r : Char) : Bool :=
  let c := r.toNat
  if c ≤ 0xFF then
    c = 0x09 || c = 0x0A || c = 0x0B || c = 0x0C || c = 0x0D || c = 0x20 || c = 0x85 || c = 0xA0
  else
    c = 0x1680 || (0x2000 ≤ c && c ≤ 0x200A) || c = 0x2028 || c = 0x2029 || c = 0x202F
      || c = 0x205F || c = 0x3000

/-- Function `strings.TrimSpace`: the string without its leading and
trailing white space. -/
def TrimSpace (s : String) : String :=
  String.mk ((s.toList.dropWhile isSpace).reverse.dropWhile isSpace).reverse

/-! ## Producer callbacks (`main.go` lines 126-158) -/

/-- What the session hands to one of the eleven registered handlers. -/
inductive Notification (L : Dggchat) : Type
  | message (m : L.Message)
  | error (e : String)
  | mute (m : L.Mute)
  | unmute (m : L.Mute)
  | ban (b : L.Ban)
  | unban (b : L.Ban)
  | join (r : L.RoomAction)
  | quit (r : L.RoomAction)
  | subOnly (so : L.SubOnly)
  | broadcast (b : L.Broadcast)
  | ping (p : L.Ping)

/-- The value each handler sends on `events`. -/
def produce : Notification L → Event L
  | .message m => .message m
  | .error e => .error (Fmt.Errorf e)
  | .mute m => .mute m
  | .unmute m => .unmute m
  | .ban b => .ban b
  | .unban b => .unban b
  | .join r => .joinAction r
  | .quit r => .quitAction r
  | .subOnly so => .subOnly so
  | .broadcast b => .broadcast b
  | .ping p => .ping p

/-! ## Startup poll and `main` after `Session.Open` (lines 167-212) -/

/-- The `for` loop polling `GetUsers` every 300 ms; `fuel` bounds the number
of polls, `none` means the loop is still running. -/
def startupPoll (sess : Nat → List L.User) : Nat → World L → Option (World L)
  | 0, _ => none
  | fuel + 1, w =>
    let (us, w1) := w.getUsers sess
    if us.length ≠ 0 then some w1
    else startupPoll sess fuel (w1.emit .sleep)

/-- The part of `main` from the poll loop on: poll, initial `renderUsers`
with a fresh `GetUsers`, then the dispatch goroutine over the events it
receives. -/
def mainAfterOpen (config : Config) (sess : Nat → List L.User) (fuel : Nat)
    (events : List (Event L)) : Option (World L) :=
  match startupPoll sess fuel { queries := 0, trace := [] } with
  | none => none
  | some w =>
    let (us, w1) := w.getUsers sess
    some (dispatchLoop config sess (w1.emit (.renderUsers us)) events)

/-! ## The Enter key binding of the `input` view (lines 103-118) -/

/-- An operation on the gocui view. -/
inductive ViewOp : Type
  | clear
  | setCursor (x y : Int)
  | setOrigin (x y : Int)
  deriving DecidableEq, Repr

/-- A call made by the Enter key handler: `chat.handleInput(line, g)` or
`g.Update` with the view operations of the function it is given. -/
inductive UiAction : Type
  | handleInput (line : String)
  | update (ops : List ViewOp)
  deriving DecidableEq, Repr

/-- Whether the call is a call of `chat.handleInput`. -/
def UiAction.isHandleInput : UiAction → Bool
  | .handleInput _ => true
  | .update _ => false

/-- The handler bound to `gocui.KeyEnter`, as a function of `v.Buffer()`. -/
def onEnter (buffer : String) : List UiAction :=
  if buffer = "" then []
  else [.handleInput (TrimSpace buffer), .update [.clear, .setCursor 0 0, .setOrigin 0 0]]

/-! ## The `events` channel (line 124) -/

/-- Capacity given to `make(chan interface{}, 100)`. -/
def capacity : Nat := 100

/-- A buffered channel: the queued values, oldest first. -/
structure Chan (α : Type) where
  buf : List α

/-- The channel `make` returns. -/
def Chan.empty {α : Type} : Chan α :=
  { buf := [] }

/-- A send `events <- e`: while fewer than `capacity` values are queued it
completes and queues `e` at the tail; at a full buffer the sender blocks
(`none`). -/
def Chan.send {α : Type} (c : Chan α) (e : α) : Option (Chan α) :=
  if c.buf.length < capacity then some { buf := c.buf ++ [e] } else none

/-- A receive `<-events`: it takes the head of the buffer; at an empty buffer
the receiver blocks (`none`). -/
def Chan.recv {α : Type} (c : Chan α) : Option (α × Chan α) :=
  match c.buf with
  | [] => none
  | e :: rest => some (e, { buf := rest })

/-- A step of the system around the channel: a producer pushes `e`, or the
dispatcher pops. -/
inductive ChanOp (α : Type) : Type
  | push (e : α)
  | pop

/-- The events pushed by a schedule, in push order, read off the schedule
itself. -/
def pushedEvents {α : Type} : List (ChanOp α) → List α
  | [] => []
  | .push e :: ops => e :: pushedEvents ops
  | .pop :: ops => pushedEvents ops

/-- Run a schedule of steps from channel `c`, the dispatcher having dequeued
`got` so far: the channel and the dequeued events at the end, or `none` when
a step of the schedule is not enabled. -/
def Chan.run {α : Type} : Chan α → List α → List (ChanOp α) → Option (Chan α × List α)
  | c, got, [] => some (c, got)
  | c, got, .push e :: ops =>
    match c.send e with
    | none => none
    | some c2 => Chan.run c2 got ops
  | c, got, .pop :: ops =>
    match c.recv with
    | none => none
    | some (e, c2) => Chan.run c2 (got ++ [e]) ops

/-- The handler that produces an event: one per recognised dynamic type,
and 11 for every other value. -/
def Event.kind : Event L → Nat
  | .message _ => 0
  | .error _ => 1
  | .mute _ => 2
  | .unmute _ => 3
  | .ban _ => 4
  | .unban _ => 5
  | .joinAction _ => 6
  | .quitAction _ => 7
  | .subOnly _ => 8
  | .broadcast _ => 9
  | .ping _ => 10
  | .other _ => 11

/-! ## The routing table of the specification -/

/-- Whether the event is a presence event (Join or Quit). -/
def Event.isPresence : Event L → Bool
  | .joinAction _ => true
  | .quitAction _ => true
  | _ => false

/-- The routing table of the specification, kind by kind: the render calls
for one event, given the join/leave-visibility flag and the roster the
roster query returns. -/
def routingAction (showJoinLeave : Bool) (roster : List L.User) : Event L → List (Action L)
  | .message m => [.renderMessage m]
  | .error text => [.renderError text]
  | .ping _ => []
  | .mute m => [.renderMute m]
  | .unmute m => [.renderUnmute m]
  | .ban b => [.renderBan b]
  | .unban b => [.renderUnban b]
  | .joinAction r => (if showJoinLeave then [.renderJoin r] else []) ++ [.renderUsers roster]
  | .quitAction r => (if showJoinLeave then [.renderQuit r] else []) ++ [.renderUsers roster]
  | .subOnly so => [.renderSubOnly so]
  | .broadcast b => [.renderBroadcast b]
  | .other _ => []

/-- The concatenation, in event order, of the routing-table actions; `n` is
the number of roster queries made before the first event. -/
def routedCalls (showJoinLeave : Bool) (sess : Nat → List L.User) :
    Nat → List (Event L) → List (Action L)
  | _, [] => []
  | n, e :: es =>
    routingAction showJoinLeave (sess n) e
      ++ routedCalls showJoinLeave sess (if e.isPresence then n + 1 else n) es

/-- The number of render calls the code makes for one event. -/
def renderCount (showJoinLeave : Bool) : Event L → Nat
  | .ping _ => 0
  | .other _ => 0
  | .joinAction _ => if showJoinLeave then 2 else 1
  | .quitAction _ => if showJoinLeave then 2 else 1
  | _ => 1

/-- The startup calls when the first `k` polls see an empty roster. -/
def pollTrace : Nat → List (Action L)
  | 0 => [.getUsers]
  | k + 1 => .getUsers :: .sleep :: pollTrace k

/-- Concrete payload types for closed examples: a chat message is
(author, body), a mute or ban is (target, moderator), a room action and a
user are a name. -/
abbrev Demo : Dggchat :=
  { Message := String × String
    Mute := String × String
    Ban := String × String
    RoomAction := String
    SubOnly := Bool
    Broadcast := String
    Ping := Nat
    User := String
    Other := Nat }

/-- A configuration with the given join/leave-visibility flag. -/
def demoConfig (showJoinLeave : Bool) : Config :=
  { DGGKey := "", CustomURL := "", Username := "me", Highlighted := [],
    ShowJoinLeave := showJoinLeave }

/-- A session reporting an empty roster for 3 polls, then two users. -/
def demoSess : Nat → List Demo.User :=
  fun i => if i < 3 then [] else ["u1", "u2"]

/-- A schedule filling the channel with 100 pings, then one pop and one
more push. -/
def demoOps : List (ChanOp (Event Demo)) :=
  List.replicate 100 (.push (.ping 7)) ++ [.pop, .push (.message ("u1", "hi"))]

/-- The channel after `demoOps`: full again, the message at the tail. -/
def demoChan : Chan (Event Demo) :=
  { buf := List.replicate 99 (.ping 7) ++ [.message ("u1", "hi")] }

/-! ## Lemmas on the dispatch loop -/

theorem handleEvent_split (config : Config) (sess : Nat → List L.User) (w : World L)
    (e : Event L) :
    handleEvent config sess w e =
      { queries := (handleEvent config sess ⟨w.queries, []⟩ e).queries
        trace := w.trace ++ (handleEvent config sess ⟨w.queries, []⟩ e).trace } := by
  cases e <;> cases h : config.ShowJoinLeave <;>
    simp [handleEvent, World.emit, World.getUsers, h]

theorem handleEvent_queries (config : Config) (sess : Nat → List L.User) (w : World L)
    (e : Event L) :
    (handleEvent config sess w e).queries = if e.isPresence then w.queries + 1 else w.queries := by
  cases e <;> cases h : config.ShowJoinLeave <;>
    simp [handleEvent, World.emit, World.getUsers, Event.isPresence, h]

theorem handleEvent_renderCalls (config : Config) (sess : Nat → List L.User) (n : Nat)
    (e : Event L) :
    renderCalls (handleEvent config sess ⟨n, []⟩ e).trace
      = routingAction config.ShowJoinLeave (sess n) e := by
  cases e <;> cases h : config.ShowJoinLeave <;>
    simp [handleEvent, World.emit, World.getUsers, renderCalls, routingAction, Action.isRender, h]

theorem dispatchLoop_nil (config : Config) (sess : Nat → List L.User) (w : World L) :
    dispatchLoop config sess w [] = w := rfl

theorem dispatchLoop_cons (config : Config) (sess : Nat → List L.User) (w : World L)
    (e : Event L) (es : List (Event L)) :
    dispatchLoop config sess w (e :: es)
      = dispatchLoop config sess (handleEvent config sess w e) es := rfl

theorem dispatchLoop_append (config : Config) (sess : Nat → List L.User) (w : World L)
    (xs ys : List (Event L)) :
    dispatchLoop config sess w (xs ++ ys)
      = dispatchLoop config sess (dispatchLoop config sess w xs) ys := by
  simp [dispatchLoop, List.foldl_append]

theorem dispatchLoop_split (config : Config) (sess : Nat → List L.User)
    (es : List (Event L)) (w : World L) :
    dispatchLoop config sess w es =
      { queries := (dispatchLoop config sess ⟨w.queries, []⟩ es).queries
        trace := w.trace ++ (dispatchLoop config sess ⟨w.queries, []⟩ es).trace } := by
  induction es generalizing w with
  | nil => simp [dispatchLoop_nil]
  | cons e es ih =>
    rw [dispatchLoop_cons, dispatchLoop_cons, ih (handleEvent config sess w e),
      ih (handleEvent config sess ⟨w.queries, []⟩ e)]
    rw [handleEvent_split config sess w e]
    simp [List.append_assoc]

theorem renderCalls_append (s t : List (Action L)) :
    renderCalls (s ++ t) = renderCalls s ++ renderCalls t := by
  simp [renderCalls]

theorem dispatchLoop_renderCalls (config : Config) (sess : Nat → List L.User)
    (es : List (Event L)) (w : World L) :
    renderCalls (dispatchLoop config sess w es).trace
      = renderCalls w.trace ++ routedCalls config.ShowJoinLeave sess w.queries es := by
  induction es generalizing w with
  | nil => simp [dispatchLoop_nil, routedCalls]
  | cons e es ih =>
    rw [dispatchLoop_cons, ih, handleEvent_queries, routedCalls]
    rw [handleEvent_split config sess w e]
    simp only [renderCalls_append, handleEvent_renderCalls, List.append_assoc]

theorem routingAction_length (showJoinLeave : Bool) (roster : List L.User) (e : Event L) :
    (routingAction showJoinLeave roster e).length = renderCount showJoinLeave e := by
  cases e <;> cases showJoinLeave <;> simp [routingAction, renderCount]

theorem routedCalls_blocks (showJoinLeave : Bool) (sess : Nat → List L.User)
    (es : List (Event L)) (n : Nat) :
    ∃ blocks : List (List (Action L)),
      List.Forall₂
        (fun e b => (∃ roster, b = routingAction showJoinLeave roster e)
          ∧ b.length = renderCount showJoinLeave e) es blocks
      ∧ routedCalls showJoinLeave sess n es = blocks.flatten := by
  induction es generalizing n with
  | nil => exact ⟨[], List.Forall₂.nil, by simp [routedCalls]⟩
  | cons e es ih =>
    obtain ⟨blocks, hb, hj⟩ := ih (if e.isPresence then n + 1 else n)
    refine ⟨routingAction showJoinLeave (sess n) e :: blocks, ?_, ?_⟩
    · exact List.Forall₂.cons ⟨⟨sess n, rfl⟩, routingAction_length _ _ _⟩ hb
    · simp [routedCalls, hj]

/-! ## Dispatch claims -/

/-- C1: for every finite list of events drained by the dispatch loop, the
render calls made are the concatenation, in event order, of the routing-table
actions of the events; for Join, ChatMessage, Mute, Quit with the
join/leave-visibility flag set they are render-join, render-users,
render-chat, render-mute, render-quit, render-users. -/
theorem C1_dispatch_routing :
    (∀ (L : Dggchat) (config : Config) (sess : Nat → List L.User) (n : Nat)
        (events : List (Event L)),
      renderCalls (dispatchLoop config sess ⟨n, []⟩ events).trace
        = routedCalls config.ShowJoinLeave sess n events) ∧
    (∀ (L : Dggchat) (config : Config) (sess : Nat → List L.User) (n : Nat)
        (j q : L.RoomAction) (m : L.Message) (mu : L.Mute),
      renderCalls (dispatchLoop { config with ShowJoinLeave := true } sess ⟨n, []⟩
          [.joinAction j, .message m, .mute mu, .quitAction q]).trace
        = [.renderJoin j, .renderUsers (sess n), .renderMessage m, .renderMute mu,
            .renderQuit q, .renderUsers (sess (n + 1))]) ∧
    renderCalls (dispatchLoop (demoConfig true)
        (fun i => if i = 0 then ["u1", "u2"] else ["u2"]) (⟨0, []⟩ : World Demo)
        [.joinAction "u1", .message ("u1", "hi"), .mute ("u1", "mod"), .quitAction "u1"]).trace
      = [.renderJoin "u1", .renderUsers ["u1", "u2"], .renderMessage ("u1", "hi"),
          .renderMute ("u1", "mod"), .renderQuit "u1", .renderUsers ["u2"]] := by
  refine ⟨?_, ?_, ?_⟩
  · intro L config sess n events
    rw [dispatchLoop_renderCalls]
    simp [renderCalls]
  · intro L config sess n j q m mu
    rw [dispatchLoop_renderCalls]
    simp [renderCalls, routedCalls, routingAction, Event.isPresence]
  · rfl

/-- C2 fails as stated: a Ping event, one of the eleven known kinds, makes
no render call, and a Join event with the join/leave flag set makes two. -/
theorem C2_counterexample :
    ((Event.ping 7 : Event Demo).kind < 11 ∧
      ¬ (renderCalls (dispatchLoop (demoConfig true) demoSess ⟨0, []⟩
          [Event.ping 7]).trace).length = 1) ∧
    ((Event.joinAction "u1" : Event Demo).kind < 11 ∧
      ¬ (renderCalls (dispatchLoop (demoConfig true) demoSess ⟨0, []⟩
          [Event.joinAction "u1"]).trace).length = 1) := by
  refine ⟨⟨by decide, ?_⟩, ⟨by decide, ?_⟩⟩
  · simp [dispatchLoop, handleEvent, renderCalls]
  · simp [dispatchLoop, handleEvent, renderCalls, World.emit, World.getUsers, demoConfig,
      Action.isRender]

/-- C2 as amended: the render calls of the dispatcher are the concatenation,
in the order the events were pushed, of one block per event, the block of
the routing table; a block has exactly one call for ChatMessage, ErrorNotice,
Mute, Unmute, Ban, Unban, SubOnlyToggle and Broadcast, none for Ping and for
an unknown kind, and for Join and Quit one call (render-users) when the
join/leave flag is unset and two when it is set. -/
theorem C2_render_blocks (config : Config) (sess : Nat → List L.User) (n : Nat)
    (events : List (Event L)) :
    ∃ blocks : List (List (Action L)),
      List.Forall₂
        (fun e b => (∃ roster, b = routingAction config.ShowJoinLeave roster e)
          ∧ b.length = renderCount config.ShowJoinLeave e) events blocks
      ∧ renderCalls (dispatchLoop config sess ⟨n, []⟩ events).trace = blocks.flatten := by
  obtain ⟨blocks, hb, hj⟩ := routedCalls_blocks config.ShowJoinLeave sess events n
  refine ⟨blocks, hb, ?_⟩
  rw [dispatchLoop_renderCalls, ← hj]
  simp [renderCalls]

/-- C3: handling a Join or a Quit event with the join/leave flag unset makes
one roster query and one render-users call and no presence notice; with the
flag set it renders the presence notice first, then makes the roster query,
then one render-users call.  Either way render-users receives the answer
to the query made while handling this event. -/
theorem C3_presence_roster (config : Config) (sess : Nat → List L.User) (w : World L)
    (r : L.RoomAction) :
    handleEvent { config with ShowJoinLeave := false } sess w (.joinAction r)
        = ⟨w.queries + 1, w.trace ++ [.getUsers, .renderUsers (sess w.queries)]⟩ ∧
    handleEvent { config with ShowJoinLeave := false } sess w (.quitAction r)
        = ⟨w.queries + 1, w.trace ++ [.getUsers, .renderUsers (sess w.queries)]⟩ ∧
    handleEvent { config with ShowJoinLeave := true } sess w (.joinAction r)
        = ⟨w.queries + 1,
            w.trace ++ [.renderJoin r, .getUsers, .renderUsers (sess w.queries)]⟩ ∧
    handleEvent { config with ShowJoinLeave := true } sess w (.quitAction r)
        = ⟨w.queries + 1,
            w.trace ++ [.renderQuit r, .getUsers, .renderUsers (sess w.queries)]⟩ := by
  simp [handleEvent, World.emit, World.getUsers]

/-- C8: an event of unrecognised kind is ignored: dispatching
`xs ++ [u] ++ ys` makes exactly the calls and roster queries of dispatching
`xs ++ ys`, and the events after it are handled. -/
theorem C8_unknown_ignored (config : Config) (sess : Nat → List L.User) (w : World L)
    (xs ys : List (Event L)) (u : L.Other) :
    dispatchLoop config sess w (xs ++ [Event.other u] ++ ys)
      = dispatchLoop config sess w (xs ++ ys) := by
  simp [dispatchLoop, List.foldl_append, handleEvent]

/-- C9: an ErrorNotice is not fatal: dispatching `xs ++ [e] ++ ys` makes the
calls of `xs`, then exactly one render-error call, then the calls `ys`
makes after `xs` when `e` does not occur, with the same roster queries. -/
theorem C9_error_not_fatal (config : Config) (sess : Nat → List L.User) (w : World L)
    (xs ys : List (Event L)) (text : String) :
    (dispatchLoop config sess w (xs ++ [Event.error text] ++ ys)).trace
        = (dispatchLoop config sess w xs).trace ++ [Action.renderError text]
          ++ (dispatchLoop config sess ⟨(dispatchLoop config sess w xs).queries, []⟩ ys).trace ∧
    (dispatchLoop config sess w (xs ++ ys)).trace
        = (dispatchLoop config sess w xs).trace
          ++ (dispatchLoop config sess ⟨(dispatchLoop config sess w xs).queries, []⟩ ys).trace ∧
    (dispatchLoop config sess w (xs ++ [Event.error text] ++ ys)).queries
        = (dispatchLoop config sess w (xs ++ ys)).queries := by
  have h1 : dispatchLoop config sess w (xs ++ [Event.error text] ++ ys)
      = dispatchLoop config sess ((dispatchLoop config sess w xs).emit (.renderError text)) ys := by
    simp [dispatchLoop, List.foldl_append, handleEvent]
  refine ⟨?_, ?_, ?_⟩
  · rw [h1, dispatchLoop_split config sess ys]
    simp [World.emit]
  · rw [dispatchLoop_append, dispatchLoop_split config sess ys]
  · rw [h1, dispatchLoop_append, dispatchLoop_split config sess ys,
      dispatchLoop_split config sess ys (dispatchLoop config sess w xs)]
    simp [World.emit]

/-! ## Startup barrier -/

theorem startupPoll_spec (sess : Nat → List L.User) (k : Nat) :
    ∀ (fuel : Nat) (w : World L), (∀ i, i < k → sess (w.queries + i) = []) →
      sess (w.queries + k) ≠ [] → k < fuel →
      startupPoll sess fuel w = some ⟨w.queries + k + 1, w.trace ++ pollTrace k⟩ := by
  induction k with
  | zero =>
    intro fuel w _ hk hf
    obtain ⟨f, rfl⟩ : ∃ f, fuel = f + 1 := ⟨fuel - 1, by omega⟩
    have hk2 : sess w.queries ≠ [] := by simpa using hk
    simp [startupPoll, World.getUsers, pollTrace, hk2]
  | succ k ih =>
    intro fuel w h0 hk hf
    obtain ⟨f, rfl⟩ : ∃ f, fuel = f + 1 := ⟨fuel - 1, by omega⟩
    have h00 : sess w.queries = [] := by simpa using h0 0 (by omega)
    have step := ih f ⟨w.queries + 1, w.trace ++ [Action.getUsers] ++ [Action.sleep]⟩
      (fun i hi => by
        have := h0 (i + 1) (by omega)
        simpa [Nat.add_assoc, Nat.add_comm 1 i] using this)
      (by simpa [Nat.add_assoc, Nat.add_comm 1 k] using hk) (by omega)
    simp only [startupPoll, World.getUsers, World.emit, h00, List.length_nil, ne_eq,
      not_true_eq_false, if_false]
    rw [step]
    simp [pollTrace, Nat.add_assoc, Nat.add_comm 1 k]

theorem isRenderUsers_getUsers : (Action.getUsers : Action L).isRenderUsers = false := rfl

theorem isRenderUsers_sleep : (Action.sleep : Action L).isRenderUsers = false := rfl

theorem isRenderUsers_renderUsers (us : List L.User) :
    (Action.renderUsers us : Action L).isRenderUsers = true := rfl

theorem isRender_getUsers : (Action.getUsers : Action L).isRender = false := rfl

theorem isRender_sleep : (Action.sleep : Action L).isRender = false := rfl

theorem isRender_renderUsers (us : List L.User) :
    (Action.renderUsers us : Action L).isRender = true := rfl

theorem pollTrace_find (k : Nat) (rest : List (Action L)) :
    (pollTrace k ++ rest).find? Action.isRenderUsers = rest.find? Action.isRenderUsers := by
  induction k with
  | zero => simp [pollTrace, List.find?_cons, isRenderUsers_getUsers]
  | succ k ih =>
    simp [pollTrace, List.find?_cons, isRenderUsers_getUsers, isRenderUsers_sleep, ih]

theorem pollTrace_takeWhile (k : Nat) (rest : List (Action L)) :
    (pollTrace k ++ rest).takeWhile (fun a => !a.isRenderUsers)
      = pollTrace k ++ rest.takeWhile (fun a => !a.isRenderUsers) := by
  induction k with
  | zero => simp [pollTrace, List.takeWhile_cons, isRenderUsers_getUsers]
  | succ k ih =>
    simp [pollTrace, List.takeWhile_cons, isRenderUsers_getUsers, isRenderUsers_sleep, ih]

theorem pollTrace_no_render (k : Nat) :
    ∀ a ∈ (pollTrace k : List (Action L)), a.isRender = false := by
  induction k with
  | zero => simp [pollTrace, isRender_getUsers]
  | succ k ih =>
    intro a ha
    simp only [pollTrace, List.mem_cons] at ha
    rcases ha with rfl | rfl | ha
    · rfl
    · rfl
    · exact ih a ha

theorem startup_renders_second_query (config : Config) (sess : Nat → List L.User)
    (k fuel : Nat) (events : List (Event L))
    (h0 : ∀ i, i < k → sess i = []) (hk : sess k ≠ []) (hf : k < fuel) :
    mainAfterOpen config sess fuel events
      = some (dispatchLoop config sess
          ⟨k + 2, pollTrace k ++ [.getUsers, .renderUsers (sess (k + 1))]⟩ events) := by
  have hp := startupPoll_spec sess k fuel (⟨0, []⟩ : World L)
    (fun i hi => by simpa using h0 i hi) (by simpa using hk) hf
  simp [mainAfterOpen, hp, World.getUsers, World.emit]

/-- C4: when the roster query answers with an empty roster for the first `k`
polls and with the non-empty roster `R` afterwards, `main` leaves its poll
loop (any bound above `k` polls suffices), the calls made before the dispatch
loop contain exactly one render call, render-users with `R`, the calls of the
dispatch loop all come after it, it is the first render-users call of the
run, and no render call (so no render-chat) precedes it. -/
theorem C4_startup_barrier (config : Config) (sess : Nat → List L.User) (k fuel : Nat)
    (R : List L.User) (events : List (Event L))
    (hR : R ≠ []) (h0 : ∀ i, i < k → sess i = []) (h1 : ∀ i, k ≤ i → sess i = R)
    (hf : k < fuel) :
    ∃ w, mainAfterOpen config sess fuel events = some w ∧
      w.trace = pollTrace k ++ [.getUsers, .renderUsers R]
        ++ (dispatchLoop config sess ⟨k + 2, []⟩ events).trace ∧
      renderCalls (pollTrace k ++ [.getUsers, .renderUsers R]) = [Action.renderUsers R] ∧
      w.trace.find? Action.isRenderUsers = some (.renderUsers R) ∧
      (w.trace.takeWhile (fun a => !a.isRenderUsers)).all (fun a => !a.isRender) = true := by
  have hp := startupPoll_spec sess k fuel (⟨0, []⟩ : World L)
    (fun i hi => by simpa using h0 i hi) (by simpa [h1 k (le_refl k)] using hR) hf
  have hk1 : sess (k + 1) = R := h1 (k + 1) (by omega)
  have hnr := pollTrace_no_render (L := L) k
  refine ⟨dispatchLoop config sess
    ⟨k + 2, pollTrace k ++ [.getUsers, .renderUsers R]⟩ events, ?_, ?_, ?_, ?_, ?_⟩
  · simp [mainAfterOpen, hp, World.getUsers, World.emit, hk1]
  · rw [dispatchLoop_split]
  · have hnil : renderCalls (pollTrace k : List (Action L)) = [] := by
      simp only [renderCalls, List.filter_eq_nil_iff]
      intro a ha
      simp [hnr a ha]
    rw [renderCalls_append, hnil]
    simp [renderCalls, List.filter_cons, isRender_getUsers, isRender_renderUsers]
  · rw [dispatchLoop_split]
    simp only [List.append_assoc]
    rw [pollTrace_find]
    simp [List.find?_cons, isRenderUsers_getUsers, isRenderUsers_renderUsers]
  · rw [dispatchLoop_split]
    simp only [List.append_assoc]
    rw [pollTrace_takeWhile]
    simp only [List.cons_append, List.nil_append, List.takeWhile_cons, isRenderUsers_getUsers,
      isRenderUsers_renderUsers, Bool.not_false, Bool.not_true, if_true, Bool.false_eq_true,
      if_false, List.all_append, List.all_cons, List.all_nil, isRender_getUsers, Bool.and_true,
      Bool.and_eq_true, List.all_eq_true, Bool.not_eq_true', and_true]
    exact hnr

/-- C4 at the input the specification names: three empty polls, then a
roster of two users. -/
theorem C4_startup_barrier_witness :
    ∃ w, mainAfterOpen (demoConfig true) demoSess 4 [Event.message ("u1", "hi")] = some w ∧
      w.trace = pollTrace 3 ++ [.getUsers, .renderUsers ["u1", "u2"]]
        ++ (dispatchLoop (demoConfig true) demoSess ⟨3 + 2, []⟩
            [Event.message ("u1", "hi")]).trace ∧
      renderCalls (pollTrace 3 ++ [.getUsers, .renderUsers ["u1", "u2"]])
        = [(Action.renderUsers ["u1", "u2"] : Action Demo)] ∧
      w.trace.find? Action.isRenderUsers = some (.renderUsers ["u1", "u2"]) ∧
      (w.trace.takeWhile (fun a => !a.isRenderUsers)).all (fun a => !a.isRender) = true :=
  C4_startup_barrier (demoConfig true) demoSess 3 4 ["u1", "u2"] [Event.message ("u1", "hi")]
    (by decide) (fun i hi => by simp [demoSess, hi])
    (fun i hi => by simp [demoSess, Nat.not_lt.mpr hi]) (by decide)

/-! ## `doPrintf` terminates within its fuel -/

theorem skipFlags_bounds (format : List Char) (fuel : Nat) :
    ∀ i, i ≤ Fmt.skipFlags format fuel i
      ∧ (i ≤ format.length → Fmt.skipFlags format fuel i ≤ format.length) := by
  induction fuel with
  | zero => intro i; simp [Fmt.skipFlags]
  | succ f ih =>
    intro i
    unfold Fmt.skipFlags
    simp only
    split
    · rename_i hc
      have := ih (i + 1)
      exact ⟨by omega, fun _ => this.2 (by omega)⟩
    · exact ⟨le_refl _, fun h => h⟩

theorem parsenumLoop_bounds (s : List Char) (stop fuel : Nat) :
    ∀ (newi : Nat) (num : Int) (isnum : Bool), newi ≤ stop →
      newi ≤ (Fmt.parsenumLoop s stop fuel newi num isnum).2.2
        ∧ (Fmt.parsenumLoop s stop fuel newi num isnum).2.2 ≤ stop := by
  induction fuel with
  | zero => intro newi num isnum h; simp [Fmt.parsenumLoop, h]
  | succ f ih =>
    intro newi num isnum h
    unfold Fmt.parsenumLoop
    simp only
    split
    · rename_i hc
      split
      · exact ⟨h, le_refl _⟩
      · have := ih (newi + 1) (num * 10 + (((s.getD newi ' ').toNat - '0'.toNat : Nat) : Int))
          true (by omega)
        exact ⟨by omega, this.2⟩
    · exact ⟨le_refl _, h⟩

theorem parsenum_bounds (s : List Char) (start stop : Nat) (h : start ≤ stop) :
    start ≤ (Fmt.parsenum s start stop).2.2 ∧ (Fmt.parsenum s start stop).2.2 ≤ stop := by
  unfold Fmt.parsenum
  split
  · exact ⟨h, le_refl _⟩
  · exact parsenumLoop_bounds s stop (stop - start) start 0 false h

theorem parseArgNumberLoop_wid (format : List Char) (fuel : Nat) :
    ∀ i, 1 ≤ (Fmt.parseArgNumberLoop format fuel i).2.1
      ∧ (format ≠ [] → (Fmt.parseArgNumberLoop format fuel i).2.1 ≤ format.length) := by
  have hone : format ≠ [] → 1 ≤ format.length := fun h =>
    Nat.succ_le_of_lt (List.length_pos.mpr h)
  induction fuel with
  | zero => intro i; exact ⟨le_refl _, hone⟩
  | succ f ih =>
    intro i
    unfold Fmt.parseArgNumberLoop
    split
    · rename_i hi
      split
      · simp only
        split
        · exact ⟨by simp, fun _ => by simpa using hi⟩
        · exact ⟨by simp, fun _ => by simpa using hi⟩
      · exact ih (i + 1)
    · exact ⟨le_refl _, hone⟩

theorem parseArgNumber_wid (format : List Char) :
    1 ≤ (Fmt.parseArgNumber format).2.1
      ∧ (format ≠ [] → (Fmt.parseArgNumber format).2.1 ≤ format.length) := by
  unfold Fmt.parseArgNumber
  split
  · exact ⟨le_refl _, fun h => Nat.succ_le_of_lt (List.length_pos.mpr h)⟩
  · exact parseArgNumberLoop_wid format format.length 1

theorem argNumber_bounds (format : List Char) (i : Nat) (good : Bool) (h : i ≤ format.length) :
    i ≤ (Fmt.argNumber format i good).1 ∧ (Fmt.argNumber format i good).1 ≤ format.length := by
  unfold Fmt.argNumber
  split
  · exact ⟨le_refl _, h⟩
  · rename_i hc
    have hi : i < format.length := by
      by_contra hcon
      exact hc (Or.inl (by omega))
    have hne : format.drop i ≠ [] := by
      intro h0
      have := congrArg List.length h0
      simp at this
      omega
    have hw := parseArgNumber_wid (format.drop i)
    have hlen := hw.2 hne
    simp only [List.length_drop] at hlen
    simp only
    exact ⟨by omega, by omega⟩

theorem scanWidth_bounds (format : List Char) (i : Nat) (buf : List Char)
    (afterIndex good : Bool) (h : i ≤ format.length) :
    i ≤ (Fmt.scanWidth format i buf afterIndex good).1
      ∧ (Fmt.scanWidth format i buf afterIndex good).1 ≤ format.length := by
  unfold Fmt.scanWidth
  split
  · rename_i hc
    exact ⟨by simp, by simpa using hc.1⟩
  · exact parsenum_bounds format i format.length h

theorem scanPrecision_bounds (format : List Char) (i : Nat) (buf : List Char)
    (afterIndex good : Bool) (h : i ≤ format.length) :
    i ≤ (Fmt.scanPrecision format i buf afterIndex good).1
      ∧ (Fmt.scanPrecision format i buf afterIndex good).1 ≤ format.length := by
  unfold Fmt.scanPrecision
  by_cases hc : i + 1 < format.length ∧ format.getD i ' ' = '.'
  · have ha := argNumber_bounds format (i + 1) (if afterIndex then false else good) (by omega)
    simp only [if_pos hc]
    generalize Fmt.argNumber format (i + 1) (if afterIndex then false else good) = a at ha
    by_cases hs : a.1 < format.length ∧ format.getD a.1 ' ' = '*'
    · simp only [if_pos hs]
      exact ⟨by omega, by omega⟩
    · simp only [if_neg hs]
      have hp := parsenum_bounds format a.1 format.length ha.2
      exact ⟨by omega, hp.2⟩
  · simp only [if_neg hc]
    exact ⟨le_refl _, h⟩

theorem formatTurn_next (format : List Char) (i : Nat) (buf : List Char) (i2 : Nat)
    (buf2 : List Char) (h : Fmt.formatTurn format i buf = .inr (i2, buf2)) :
    i < i2 ∧ i2 ≤ format.length := by
  unfold Fmt.formatTurn at h
  simp only at h
  split at h
  · cases h
  · rename_i hlit
    have hlit2 : i + ((format.drop i).takeWhile (fun c => decide (c ≠ '%'))).length + 1
        ≤ format.length := by omega
    have h1 := skipFlags_bounds format
      (format.length - (i + ((format.drop i).takeWhile (fun c => decide (c ≠ '%'))).length + 1))
      (i + ((format.drop i).takeWhile (fun c => decide (c ≠ '%'))).length + 1)
    have h1b := h1.2 hlit2
    generalize Fmt.skipFlags format
      (format.length - (i + ((format.drop i).takeWhile (fun c => decide (c ≠ '%'))).length + 1))
      (i + ((format.drop i).takeWhile (fun c => decide (c ≠ '%'))).length + 1) = j1 at h h1 h1b
    have h2 := argNumber_bounds format j1 true h1b
    generalize Fmt.argNumber format j1 true = a at h h2
    have h3 := scanWidth_bounds format a.1 (buf ++ (format.drop i).takeWhile
      (fun c => decide (c ≠ '%'))) a.2.1 a.2.2 h2.2
    generalize Fmt.scanWidth format a.1 (buf ++ (format.drop i).takeWhile
      (fun c => decide (c ≠ '%'))) a.2.1 a.2.2 = w at h h3
    have h4 := scanPrecision_bounds format w.1 w.2.1 w.2.2.1 w.2.2.2 h3.2
    generalize Fmt.scanPrecision format w.1 w.2.1 w.2.2.1 w.2.2.2 = q at h h4
    have h5 : q.1 ≤ (if (!q.2.2.1) = true then Fmt.argNumber format q.1 q.2.2.2
        else (q.1, q.2.2.1, q.2.2.2)).1 := by
      split
      · exact (argNumber_bounds format q.1 q.2.2.2 h4.2).1
      · exact le_refl _
    generalize (if (!q.2.2.1) = true then Fmt.argNumber format q.1 q.2.2.2
        else (q.1, q.2.2.1, q.2.2.2)) = b at h h5
    split at h
    · cases h
    · rename_i hb
      have hi2 : i2 = b.1 + 1 := by
        split at h
        · cases h; rfl
        · split at h <;> (cases h; rfl)
      omega

theorem doPrintf_fuel (format : List Char) (fuel1 : Nat) :
    ∀ (fuel2 i : Nat) (buf : List Char), format.length < fuel1 + i →
      format.length < fuel2 + i →
      Fmt.doPrintf format fuel1 i buf = Fmt.doPrintf format fuel2 i buf := by
  induction fuel1 with
  | zero =>
    intro fuel2 i buf h1 _
    have hi : format.length ≤ i := by omega
    cases fuel2 with
    | zero => rfl
    | succ f2 =>
      have hd : format.drop i = [] := List.drop_eq_nil_of_le hi
      simp [Fmt.doPrintf, Fmt.formatTurn, hd, hi]
  | succ f1 ih =>
    intro fuel2 i buf h1 h2
    cases fuel2 with
    | zero =>
      have hi : format.length ≤ i := by omega
      have hd : format.drop i = [] := List.drop_eq_nil_of_le hi
      simp [Fmt.doPrintf, Fmt.formatTurn, hd, hi]
    | succ f2 =>
      unfold Fmt.doPrintf
      cases ht : Fmt.formatTurn format i buf with
      | inl out => rfl
      | inr nb =>
        obtain ⟨i2, buf2⟩ := nb
        have hn := formatTurn_next format i buf i2 buf2 ht
        exact ih f2 i2 buf2 (by omega) (by omega)

theorem Errorf_fuel (format : String) (extra : Nat) :
    Fmt.Errorf format
      = String.mk (Fmt.doPrintf format.toList (format.length + 1 + extra) 0 []) := by
  obtain ⟨d⟩ := format
  show String.mk (Fmt.doPrintf d (d.length + 1) 0 [])
    = String.mk (Fmt.doPrintf d (d.length + 1 + extra) 0 [])
  rw [doPrintf_fuel d (d.length + 1) (d.length + 1 + extra) 0 [] (by omega) (by omega)]

theorem Errorf_samples :
    Fmt.Errorf "throttled" = "throttled" ∧
    Fmt.Errorf "100%" = "100%!(NOVERB)" ∧
    Fmt.Errorf "a%db" = "a%!d(MISSING)b" ∧
    Fmt.Errorf "50%% off" = "50% off" ∧
    Fmt.Errorf "%[1]d" = "%!d(BADINDEX)" ∧
    Fmt.Errorf "%*d" = "%!(BADWIDTH)%!d(MISSING)" ∧
    Fmt.Errorf "%.*d" = "%!(BADPREC)%!d(MISSING)" ∧
    Fmt.Errorf "%." = "%!.(MISSING)" := by
  decide

theorem TrimSpace_samples :
    TrimSpace "  hi \n" = "hi" ∧ TrimSpace "a b" = "a b" ∧ TrimSpace " \t\r\n" = "" := by
  decide

/-! ## Payloads from callback to render call -/

theorem doPrintf_no_percent (format : List Char) (h : ∀ c ∈ format, c ≠ '%') (fuel : Nat) :
    Fmt.doPrintf format (fuel + 1) 0 [] = format := by
  have ht : format.takeWhile (fun c => !decide (c = '%')) = format := by
    rw [List.takeWhile_eq_self_iff]
    intro c hc
    simpa using h c hc
  simp [Fmt.doPrintf, Fmt.formatTurn, ht]

theorem Errorf_no_percent (e : String) (h : ∀ c ∈ e.toList, c ≠ '%') : Fmt.Errorf e = e := by
  unfold Fmt.Errorf
  rw [doPrintf_no_percent e.toList h]
  cases e
  rfl

theorem payload_to_render (config : Config) (sess : Nat → List L.User) (w : World L) :
    (∀ m, (handleEvent config sess w (produce (.message m))).trace
        = w.trace ++ [.renderMessage m]) ∧
    (∀ e, (handleEvent config sess w (produce (.error e))).trace
        = w.trace ++ [.renderError (Fmt.Errorf e)]) ∧
    (∀ m, (handleEvent config sess w (produce (.mute m))).trace
        = w.trace ++ [.renderMute m]) ∧
    (∀ m, (handleEvent config sess w (produce (.unmute m))).trace
        = w.trace ++ [.renderUnmute m]) ∧
    (∀ b, (handleEvent config sess w (produce (.ban b))).trace
        = w.trace ++ [.renderBan b]) ∧
    (∀ b, (handleEvent config sess w (produce (.unban b))).trace
        = w.trace ++ [.renderUnban b]) ∧
    (∀ r, (handleEvent config sess w (produce (.join r))).trace
        = w.trace ++ (if config.ShowJoinLeave then [.renderJoin r] else [])
          ++ [.getUsers, .renderUsers (sess w.queries)]) ∧
    (∀ r, (handleEvent config sess w (produce (.quit r))).trace
        = w.trace ++ (if config.ShowJoinLeave then [.renderQuit r] else [])
          ++ [.getUsers, .renderUsers (sess w.queries)]) ∧
    (∀ so, (handleEvent config sess w (produce (.subOnly so))).trace
        = w.trace ++ [.renderSubOnly so]) ∧
    (∀ b, (handleEvent config sess w (produce (.broadcast b))).trace
        = w.trace ++ [.renderBroadcast b]) ∧
    (∀ p, (handleEvent config sess w (produce (.ping p))).trace = w.trace) := by
  cases h : config.ShowJoinLeave <;>
    simp [produce, handleEvent, World.emit, World.getUsers, h]

/-- C5 on the code: the error string `100%` delivered to the error callback
goes through `fmt.Errorf` as a format string, and render-error receives
`100%!(NOVERB)` instead. -/
theorem C5_error_payload_reformatted (config : Config) (sess : Nat → List L.User)
    (w : World L) :
    (handleEvent config sess w (produce (Notification.error "100%"))).trace
        = w.trace ++ [Action.renderError "100%!(NOVERB)"] ∧
    "100%!(NOVERB)" ≠ "100%" := by
  have h : Fmt.Errorf "100%" = "100%!(NOVERB)" := by decide
  refine ⟨?_, by decide⟩
  simp [produce, handleEvent, World.emit, h]

/-! ## The Enter key handler -/

theorem onEnter_empty : onEnter "" = [] := by
  simp [onEnter]

theorem onEnter_nonempty (buffer : String) (h : buffer ≠ "") :
    onEnter buffer
      = [.handleInput (TrimSpace buffer), .update [.clear, .setCursor 0 0, .setOrigin 0 0]] := by
  simp [onEnter, h]

theorem TrimSpace_of_all_space (buffer : String) (h : ∀ c ∈ buffer.toList, isSpace c = true) :
    TrimSpace buffer = "" := by
  have hd : buffer.toList.dropWhile isSpace = [] := List.dropWhile_eq_nil_iff.mpr h
  unfold TrimSpace
  rw [hd]
  rfl

theorem TrimSpace_ne_empty (buffer : String) (c : Char) (hc : c ∈ buffer.toList)
    (hs : isSpace c = false) : TrimSpace buffer ≠ "" := by
  have hd : buffer.toList.dropWhile isSpace ≠ [] := by
    intro h0
    have := List.dropWhile_eq_nil_iff.mp h0 c hc
    simp [hs] at this
  have hh := List.head_dropWhile_not isSpace buffer.toList hd
  have hr : (buffer.toList.dropWhile isSpace).reverse.dropWhile isSpace ≠ [] := by
    intro h0
    have := List.dropWhile_eq_nil_iff.mp h0 _
      (List.mem_reverse.mpr (List.head_mem hd))
    rw [hh] at this
    cases this
  intro h
  have hdata := congrArg String.data h
  simp only [TrimSpace] at hdata
  exact hr (List.reverse_eq_nil_iff.mp hdata)

theorem onEnter_whitespace_only (buffer : String) (hne : buffer ≠ "")
    (h : ∀ c ∈ buffer.toList, isSpace c = true) :
    onEnter buffer
      = [.handleInput "", .update [.clear, .setCursor 0 0, .setOrigin 0 0]] := by
  rw [onEnter_nonempty buffer hne, TrimSpace_of_all_space buffer h]

/-- C6 on the code: for the buffer holding one space, which is
whitespace-only, the Enter key handler calls the input command handler
(with the empty line) and schedules the clearing of the view. -/
theorem C6_whitespace_buffer_forwarded :
    " ".toList.all isSpace = true ∧
    onEnter " "
      = [.handleInput "", .update [.clear, .setCursor 0 0, .setOrigin 0 0]] := by
  decide

/-- C7 on the code: for the buffer holding a tab and a line feed the Enter
key handler calls the input command handler once, and the line it passes,
the trimmed buffer, is empty. -/
theorem C7_empty_line_forwarded :
    TrimSpace "\t\n" = "" ∧
    (onEnter "\t\n").filter UiAction.isHandleInput
      = [UiAction.handleInput ""] := by
  decide

/-! ## The event channel -/

theorem Chan.run_inv {α : Type} (ops : List (ChanOp α)) :
    ∀ (c c2 : Chan α) (got got2 : List α), Chan.run c got ops = some (c2, got2) →
      c.buf.length ≤ capacity →
      got2 ++ c2.buf = got ++ c.buf ++ pushedEvents ops ∧ c2.buf.length ≤ capacity := by
  induction ops with
  | nil =>
    intro c c2 got got2 h hc
    simp only [Chan.run, Option.some.injEq, Prod.mk.injEq] at h
    obtain ⟨rfl, rfl⟩ := h
    exact ⟨by simp [pushedEvents], hc⟩
  | cons op ops ih =>
    intro c c2 got got2 h hc
    cases op with
    | push e =>
      unfold Chan.run at h
      cases hs : c.send e with
      | none => simp [hs] at h
      | some c1 =>
        simp only [hs] at h
        unfold Chan.send at hs
        split at hs
        · rename_i hlt
          cases hs
          have := ih _ c2 got got2 h (by simp only [List.length_append, List.length_singleton]; omega)
          exact ⟨by rw [this.1]; simp [pushedEvents], this.2⟩
        · cases hs
    | pop =>
      unfold Chan.run at h
      cases hr : c.recv with
      | none => simp [hr] at h
      | some r =>
        obtain ⟨e, c1⟩ := r
        simp only [hr] at h
        unfold Chan.recv at hr
        split at hr
        · cases hr
        · rename_i x rest hb
          cases hr
          have := ih _ c2 (got ++ [e]) got2 h (by rw [hb] at hc; simp at hc; simp; omega)
          exact ⟨by rw [this.1, hb]; simp [pushedEvents], this.2⟩

theorem Chan.send_enabled {α : Type} (c : Chan α) (e : α) :
    (c.send e).isSome = decide (c.buf.length < 100) := by
  unfold Chan.send capacity
  split <;> simp [*]

/-- C10: run any schedule of producer pushes and dispatcher pops from the
empty `events` channel, a step being taken only when it is enabled.  At the
end at most 100 events are queued; the events pushed, read off the schedule,
are exactly the events dequeued followed by the events still queued, so the
dequeued sequence is an initial segment of the pushed sequence, and so is,
for each producer, the dequeued sequence of that producer: nothing is
dropped, duplicated or reordered.  A push is enabled exactly while fewer
than 100 events are queued. -/
theorem C10_channel_fifo (ops : List (ChanOp (Event L))) (c : Chan (Event L))
    (got : List (Event L)) (h : Chan.run Chan.empty [] ops = some (c, got)) :
    c.buf.length ≤ 100 ∧
    pushedEvents ops = got ++ c.buf ∧
    got <+: pushedEvents ops ∧
    (∀ producer : Nat,
      got.filter (fun e => decide (e.kind = producer))
        <+: (pushedEvents ops).filter (fun e => decide (e.kind = producer))) ∧
    (∀ e, (c.send e).isSome = decide (c.buf.length < 100)) := by
  obtain ⟨h1, h2⟩ := Chan.run_inv ops Chan.empty c [] got h (by simp [Chan.empty])
  have h3 : pushedEvents ops = got ++ c.buf := by
    rw [h1]
    simp [Chan.empty]
  refine ⟨h2, h3, ⟨c.buf, h3.symm⟩, fun producer => ?_, fun e => Chan.send_enabled c e⟩
  rw [h3, List.filter_append]
  exact List.prefix_append _ _

set_option maxRecDepth 100000 in
theorem demoOps_run : Chan.run Chan.empty [] demoOps = some (demoChan, [Event.ping 7]) := by
  rfl

set_option maxRecDepth 100000 in
theorem full_channel_blocks :
    Chan.run (Chan.empty : Chan (Event Demo)) [] (List.replicate 101 (.push (.ping 7))) = none := by
  rfl

/-- C10 at a schedule that fills the channel with 100 events, pops one and
pushes one more. -/
theorem C10_channel_fifo_witness :
    Chan.run Chan.empty [] demoOps = some (demoChan, [Event.ping 7]) ∧
    (demoChan.buf.length ≤ 100 ∧
      pushedEvents demoOps = [Event.ping 7] ++ demoChan.buf ∧
      [Event.ping 7] <+: pushedEvents demoOps ∧
      (∀ producer : Nat,
        [(Event.ping 7 : Event Demo)].filter (fun e => decide (e.kind = producer))
          <+: (pushedEvents demoOps).filter (fun e => decide (e.kind = producer))) ∧
      (∀ e, (demoChan.send e).isSome = decide (demoChan.buf.length < 100))) :=
  ⟨demoOps_run, C10_channel_fifo demoOps demoChan [Event.ping 7] demoOps_run⟩

end Tdgg
